import Mathlib

/-!
Verification of the apptainer build engine core: a shallow embedding of the
definition-file parser (pkg/build/types/parser), the build orchestrator
(internal/pkg/build/build.go), the metadata writer
(internal/pkg/build/metadata.go) and the squashfuse image driver
(internal/pkg/image/driver/squashfuse/driver.go), together with theorems
settling the specification claims about them.

Strings are modelled as lists of characters (`Str`); Go maps holding string
keys are modelled as insertion-ordered association lists with an upsert
operation, and a nil Go map is modelled as `Option` where nil-ness is
observable (`Definition.header`).
-/

set_option maxRecDepth 20000

namespace Apptainer

/-- Character-list strings used throughout the embedding. -/
abbrev Str := List Char

/-- Decidable equality on Except results, so concrete runs of the embedded
functions can be checked by evaluation. -/
instance instDecEqExcept {ε α : Type} [DecidableEq ε] [DecidableEq α] :
    DecidableEq (Except ε α) := fun a b => by
  cases a <;> cases b
  case error.error x y => exact decidable_of_iff (x = y) (by simp)
  case error.ok x y => exact Decidable.isFalse (by simp)
  case ok.error x y => exact Decidable.isFalse (by simp)
  case ok.ok x y => exact decidable_of_iff (x = y) (by simp)

/-- Coercion from Lean string literals to the embedding's string type. -/
def strL (s : String) : Str := s.data

/-- Double-quote character. -/
def dquote : Char := Char.ofNat 34

/-- Single-quote character. -/
def squote : Char := Char.ofNat 39

/-- Backslash character. -/
def bslash : Char := Char.ofNat 92

/-- Left curly brace character. -/
def lbrace : Char := Char.ofNat 123

/-- Right curly brace character. -/
def rbrace : Char := Char.ofNat 125

/-- Go unicode.IsSpace restricted to the ASCII range, as used by
strings.TrimSpace and bufio.ScanWords on recipe text. -/
def goIsSpace (c : Char) : Bool :=
  c = ' ' || c = '\t' || c = '\n' || c = Char.ofNat 11 || c = Char.ofNat 12 || c = '\r'

/-- Go strings.TrimSpace: strip leading and trailing white space. -/
def trimSpace (s : Str) : Str :=
  ((s.dropWhile goIsSpace).reverse.dropWhile goIsSpace).reverse

/-- Split a string on every occurrence of a separator character; mirrors Go
strings.Split with a one-character separator (the result is never empty). -/
def splitOnChar (sep : Char) : Str → List Str
  | [] => [[]]
  | c :: rest =>
    if c = sep then [] :: splitOnChar sep rest
    else
      match splitOnChar sep rest with
      | r :: rs => (c :: r) :: rs
      | [] => [[c]]

/-- Split at the first occurrence of a separator character, returning the part
before it and the part after it; `none` when the separator does not occur.
Used to mirror Go strings.SplitN with count 2. -/
def splitOnFirst (sep : Char) : Str → Option (Str × Str)
  | [] => none
  | c :: rest =>
    if c = sep then some ([], rest)
    else
      match splitOnFirst sep rest with
      | some (a, b) => some (c :: a, b)
      | none => none

/-- Go strings.SplitN with a one-character separator and positive count n:
at most n substrings, the last one holding the unsplit remainder. -/
def splitNChar (sep : Char) : Nat → Str → List Str
  | 0, _ => []
  | 1, s => [s]
  | n + 2, s =>
    match splitOnFirst sep s with
    | none => [s]
    | some (a, b) => a :: splitNChar sep (n + 1) b

/-- First element of a split, with an empty default (the split is never
actually empty). -/
def headStr (l : List Str) : Str := l.headD []

/-- Go strings.HasSuffix for a one-character suffix. -/
def hasSuffixChar (c : Char) (s : Str) : Bool := s.getLast? = some c

/-- Go strings.TrimSuffix for a one-character suffix. -/
def trimSuffixChar (c : Char) (s : Str) : Str :=
  if hasSuffixChar c s then s.dropLast else s

/-- Go strings.HasSuffix for a two-character suffix. -/
def hasSuffix2 (c₁ c₂ : Char) (s : Str) : Bool :=
  match s.reverse with
  | b :: a :: _ => a = c₁ && b = c₂
  | _ => false

/-- Go strings.TrimSuffix for a two-character suffix. -/
def trimSuffix2 (c₁ c₂ : Char) (s : Str) : Str :=
  if hasSuffix2 c₁ c₂ s then s.dropLast.dropLast else s

/-- Go strings.ToLower on ASCII text. -/
def toLowerStr (s : Str) : Str := s.map Char.toLower

/-- Boolean prefix test on character lists. -/
def isPrefixStr : Str → Str → Bool
  | [], _ => true
  | _ :: _, [] => false
  | a :: as, b :: bs => if a = b then isPrefixStr as bs else false

/-- Go strings.Contains. -/
def strContains : Str → Str → Bool
  | s, pat =>
    if isPrefixStr pat s then true
    else
      match s with
      | [] => false
      | _ :: rest => strContains rest pat

/-- Association-list lookup for string-keyed Go maps. -/
def lookupStr : List (Str × Str) → Str → Option Str
  | [], _ => none
  | p :: rest, k => if p.1 = k then some p.2 else lookupStr rest k

/-- Association-list upsert for string-keyed Go maps: replace the value in
place when the key is present, append otherwise. -/
def setStr : List (Str × Str) → Str → Str → List (Str × Str)
  | [], k, v => [(k, v)]
  | p :: rest, k, v => if p.1 = k then (k, v) :: rest else p :: setStr rest k v

/-- Membership test for string-keyed Go maps. -/
def hasKeyStr (m : List (Str × Str)) (k : Str) : Bool :=
  match lookupStr m k with
  | some _ => true
  | none => false

/-- Go map index expression m[k] on a string map, yielding the zero value
(the empty string) when the key is absent. -/
def getStrD (m : List (Str × Str)) (k : Str) : Str :=
  (lookupStr m k).getD []

/-- Drop a single trailing carriage return, as bufio.ScanLines does. -/
def dropCR (s : Str) : Str :=
  if s.getLast? = some '\r' then s.dropLast else s

/-- Decompose a buffer into lines exactly as repeated bufio.ScanLines calls do
on fully buffered data: each line loses its terminator (and a trailing CR),
and a final unterminated line still counts. -/
def linesOf (cs : Str) : List Str :=
  if cs = [] then []
  else
    let parts := splitOnChar '\n' cs
    (if cs.getLast? = some '\n' then parts.dropLast else parts).map dropCR

/-- First whitespace-delimited word of a line, as one bufio.ScanWords step;
`none` when the line is blank. -/
def firstWord (s : Str) : Option Str :=
  let t := s.dropWhile goIsSpace
  if t = [] then none else some (t.takeWhile (fun c => !goIsSpace c))

/-- Test from scanDefinitionFile: the line's first word exists and starts
with a percent sign, so the line opens a section. -/
def lineIsSection (line : Str) : Bool :=
  match firstWord line with
  | some (c :: _) => c = '%'
  | _ => false

/-- Reassemble accumulated lines into a token: scanDefinitionFile writes each
line followed by a single newline into its buffer. -/
def joinLines (accRev : List Str) : Str :=
  (accRev.reverse.map (fun l => l ++ ['\n'])).flatten

/-- Loop of scanDefinitionFile driven by bufio.Scanner over the whole buffer:
a section-opening line emits the accumulated buffer (the header blob or the
previous section) and starts a new token with itself; every other line is
appended; the final buffer is emitted when non-empty. -/
def scanDefTokensAux : List Str → List Str → List Str
  | [], accRev => if accRev = [] then [] else [joinLines accRev]
  | line :: rest, accRev =>
    if lineIsSection line then
      if accRev = [] then scanDefTokensAux rest [line]
      else joinLines accRev :: scanDefTokensAux rest [line]
    else scanDefTokensAux rest (line :: accRev)

/-- Token stream produced by a bufio.Scanner running scanDefinitionFile. -/
def scanDefTokens (cs : Str) : List Str := scanDefTokensAux (linesOf cs) []

/-- Script of the definition data model: its argument string and its body. -/
structure Script where
  args : Str := []
  script : Str := []
deriving DecidableEq, Repr

/-- FileTransport of the definition data model: one src/dst pair of a files
section. -/
structure FileTransport where
  src : Str
  dst : Str
deriving DecidableEq, Repr

/-- Files block of the definition data model: the files of one (or several
merged) files sections sharing an args string. -/
structure FilesBlock where
  args : Str := []
  files : List FileTransport := []
deriving DecidableEq, Repr

/-- ImageScripts of the definition data model. -/
structure ImageScripts where
  help : Script := {}
  environment : Script := {}
  runscript : Script := {}
  test : Script := {}
  startscript : Script := {}
deriving DecidableEq, Repr

/-- Build-time Scripts of the definition data model. -/
structure BuildScripts where
  arguments : Script := {}
  pre : Script := {}
  setup : Script := {}
  post : Script := {}
  test : Script := {}
deriving DecidableEq, Repr

/-- Definition: one parsed recipe stage.  A Go nil map is distinguished from
an empty one, hence the Option around the header map. -/
structure Definition where
  header : Option (List (Str × Str)) := none
  imageScripts : ImageScripts := {}
  labels : List (Str × Str) := []
  buildFiles : List FilesBlock := []
  buildScripts : BuildScripts := {}
  customData : List (Str × Str) := []
  appOrder : List Str := []
  raw : Str := []
  fullRaw : Str := []
deriving DecidableEq, Repr

/-- Errors of the recipe parser.  The two runtime panics reachable in the Go
code (assignment to the nil header map, and indexing an empty splitter result)
are modelled as distinguished error values so the embedding stays total. -/
inductive ParseErr where
  | emptyDefinition
  | invalidSection (sections : List Str)
  | headerKeyNoVal (key : Str)
  | invalidHeaderKeyword (key : Str)
  | sectionSplit (name : Str)
  | appSectionSplit (name : Str)
  | headerNilMapWrite (key : Str)
  | filesIndexOutOfRange
  | noStages
deriving DecidableEq, Repr

/-- The closed set of valid top-level section names. -/
def validSections : List Str :=
  [strL "help", strL "setup", strL "files", strL "labels", strL "environment",
   strL "pre", strL "post", strL "runscript", strL "test", strL "startscript",
   strL "arguments"]

/-- The closed set of app section prefixes. -/
def appSections : List Str :=
  [strL "appinstall", strL "applabels", strL "appfiles", strL "appenv",
   strL "apptest", strL "apphelp", strL "apprun", strL "appstart"]

/-- The closed set of valid header keywords. -/
def validHeaders : List Str :=
  [strL "bootstrap", strL "from", strL "includecmd", strL "mirrorurl",
   strL "updateurl", strL "osversion", strL "include", strL "library",
   strL "registry", strL "namespace", strL "stage", strL "product",
   strL "user", strL "regcode", strL "productpgp", strL "registerurl",
   strL "modules", strL "otherurl&n", strL "fingerprints", strL "confurl",
   strL "setopt", strL "target", strL "frontend", strL "filename",
   strL "buildargs"]

/-- Perl class backslash-s of the Go regexp package: tab, newline, form feed,
carriage return, space. -/
def isRegexSpace (c : Char) : Bool :=
  c = '\t' || c = '\n' || c = Char.ofNat 12 || c = '\r' || c = ' '

/-- Perl class backslash-w of the Go regexp package. -/
def isWordChar (c : Char) : Bool :=
  ('a' ≤ c && c ≤ 'z') || ('A' ≤ c && c ≤ 'Z') || ('0' ≤ c && c ≤ '9') || c = '_'

/-- Character class of the fileSplitter regular expression excluding
whitespace and both quote characters. -/
def isClassA (c : Char) : Bool :=
  !isRegexSpace c && c ≠ dquote && c ≠ squote

/-- Character class of the fileSplitter regular expression additionally
excluding both brace characters. -/
def isClassB (c : Char) : Bool :=
  isClassA c && c ≠ lbrace && c ≠ rbrace

/-- Tail of one iteration of the first fileSplitter alternative after its
leading class-A run: two opening braces, optional space, a word, optional
space, a closing brace, further closing braces, then a class-B run.  Returns
the rest of the input on success.  Greedy matching here is deterministic
because the successive character classes are disjoint. -/
def matchGTail : Str → Option Str
  | c1 :: c2 :: r1 =>
    if c1 = lbrace ∧ c2 = lbrace then
      let r2 := r1.dropWhile isRegexSpace
      let w := r2.takeWhile isWordChar
      if w = [] then none
      else
        let r3 := (r2.drop w.length).dropWhile isRegexSpace
        match r3 with
        | c3 :: r4 =>
          if c3 = rbrace then
            let r5 := r4.dropWhile (fun c => c = rbrace)
            some (r5.dropWhile isClassB)
          else none
        | [] => none
    else none
  | _ => none

/-- Backtracking over the greedy leading class-A run of one group iteration:
candidate run lengths are tried from longest to shortest, as a leftmost-first
engine does. -/
def matchGAux (cs : Str) : Nat → Option Str
  | 0 => matchGTail cs
  | i + 1 =>
    match matchGTail (cs.drop (i + 1)) with
    | some r => some r
    | none => matchGAux cs i

/-- Match one iteration of the parenthesised group of the first fileSplitter
alternative, returning the rest of the input. -/
def matchG (cs : Str) : Option Str :=
  matchGAux cs (cs.takeWhile isClassA).length

/-- Greedy repetition of further group iterations (the plus quantifier),
bounded by a fuel that the input length always satisfies because every
iteration consumes at least one character. -/
def plusGAux : Nat → Str → Str
  | 0, r => r
  | f + 1, r =>
    match matchG r with
    | none => r
    | some r2 => plusGAux f r2

/-- First alternative of fileSplitter: one or more group iterations. -/
def matchAlt1 (cs : Str) : Option Str :=
  match matchG cs with
  | none => none
  | some r => some (plusGAux cs.length r)

/-- Second alternative of fileSplitter: an unquoted class-A run, a
double-quoted run requiring its closing quote, or a single-quoted run whose
closing quote is not required by the expression. -/
def matchAlt2 : Str → Option Str
  | [] => none
  | c :: rest =>
    if isClassA c then some (rest.dropWhile isClassA)
    else if c = dquote then
      let t := rest.takeWhile (fun x => x ≠ dquote)
      match rest.drop t.length with
      | d :: r2 => if d = dquote then some r2 else none
      | [] => none
    else if c = squote then some (rest.dropWhile (fun x => x ≠ squote))
    else none

/-- Leftmost-first match of fileSplitter at the current position. -/
def fileSplitterMatch (cs : Str) : Option Str :=
  match matchAlt1 cs with
  | some r => some r
  | none => matchAlt2 cs

/-- FindAllString for fileSplitter: scan left to right, emitting each match
and restarting after it, advancing one character where no match starts. -/
def fileSplitterAllAux : Nat → Str → List Str
  | 0, _ => []
  | f + 1, cs =>
    match fileSplitterMatch cs with
    | some rest => cs.take (cs.length - rest.length) :: fileSplitterAllAux f rest
    | none =>
      match cs with
      | [] => []
      | _ :: t => fileSplitterAllAux f t

/-- Tokens the fileSplitter regular expression finds in a files-section line. -/
def fileSplitterFindAll (cs : Str) : List Str :=
  fileSplitterAllAux (cs.length + 1) cs

/-- Section name of a section token's first line: trim the percent signs,
lower-case, first space-delimited word. -/
def getSectionName (line : Str) : Str :=
  headStr (splitNChar ' ' 2 (toLowerStr (line.dropWhile (fun c => c = '%'))))

/-- Go strings.Trim for a one-character cutset. -/
def trimCharBoth (c : Char) (s : Str) : Str :=
  ((s.dropWhile (fun x => x = c)).reverse.dropWhile (fun x => x = c)).reverse

/-- Files-section body loop of parseTokenSection: skip blank and comment
lines, split each remaining line with fileSplitter, keep the first one or two
tokens stripped of double quotes.  An empty splitter result makes the Go code
index an empty slice; that runtime panic is the distinguished error here. -/
def parseFilesLines : List Str → FilesBlock → Except ParseErr FilesBlock
  | [], f => .ok f
  | line :: rest, f =>
    let tline := trimSpace line
    if tline = [] || tline.head? = some '#' then parseFilesLines rest f
    else
      match fileSplitterFindAll tline with
      | [] => .error .filesIndexOutOfRange
      | [x] =>
        let src := trimCharBoth dquote (trimSpace x)
        parseFilesLines rest {f with files := f.files ++ [⟨src, []⟩]}
      | x :: y :: _ =>
        let src := trimCharBoth dquote (trimSpace x)
        let dst := trimCharBoth dquote (trimSpace y)
        parseFilesLines rest {f with files := f.files ++ [⟨src, dst⟩]}

/-- Merge step of parseTokenSection for files: append to the first existing
block with the same args, otherwise append a new block. -/
def mergeFilesBlock : List FilesBlock → FilesBlock → List FilesBlock
  | [], f => [f]
  | ef :: rest, f =>
    if ef.args = f.args then {ef with files := ef.files ++ f.files} :: rest
    else ef :: mergeFilesBlock rest f

/-- Lookup in the transient sections map. -/
def lookupScript : List (Str × Script) → Str → Option Script
  | [], _ => none
  | p :: rest, k => if p.1 = k then some p.2 else lookupScript rest k

/-- Create an empty Script entry when the key is absent, as the Go code does
before writing through the map. -/
def ensureScript (m : List (Str × Script)) (k : Str) : List (Str × Script) :=
  match lookupScript m k with
  | some _ => m
  | none => m ++ [(k, {})]

/-- Update the Script stored under a key in place. -/
def updateScript : List (Str × Script) → Str → (Script → Script) → List (Str × Script)
  | [], _, _ => []
  | p :: rest, k, g => if p.1 = k then (p.1, g p.2) :: rest else p :: updateScript rest k g

/-- parseTokenSection: split a token into its section line and body and store
it as a files block, an app section, or an ordinary section. -/
def parseTokenSection (tok : Str) (sections : List (Str × Script))
    (files : List FilesBlock) (appOrder : List Str) :
    Except ParseErr (List (Str × Script) × List FilesBlock × List Str) :=
  match splitNChar '\n' 2 tok with
  | [first] => .error (.sectionSplit first)
  | [] => .error (.sectionSplit [])
  | first :: body :: _ =>
    let key := getSectionName first
    if key = strL "files" then
      let nameSplit := splitNChar ' ' 2 (first.dropWhile (fun c => c = '%'))
      let fargs : Str :=
        match nameSplit with
        | [_, a] => a
        | _ => []
      match parseFilesLines (splitOnChar '\n' (trimSpace body)) {args := fargs} with
      | .error e => .error e
      | .ok f => .ok (sections, mergeFilesBlock files f, appOrder)
    else if appSections.contains key then
      let nameSplit := splitNChar ' ' 3 (first.dropWhile (fun c => c = '%'))
      match nameSplit with
      | s0 :: appName :: _ =>
        let akey := s0 ++ ' ' :: appName
        let sections := ensureScript sections akey
        let appOrder := if appOrder.contains appName then appOrder else appOrder ++ [appName]
        .ok (updateScript sections akey (fun sc => {sc with script := sc.script ++ body}),
             files, appOrder)
      | _ => .error (.appSectionSplit (headStr nameSplit))
    else
      let sections := ensureScript sections key
      let nameSplit := splitNChar ' ' 2 (first.dropWhile (fun c => c = '%'))
      let sections :=
        match nameSplit with
        | [_, a] => updateScript sections key (fun sc => {sc with args := a})
        | _ => sections
      .ok (updateScript sections key (fun sc => {sc with script := sc.script ++ body}),
           files, appOrder)

/-- Line loop of GetLabels: skip blank and comment lines, split on the first
space into key and value. -/
def getLabelsLines : List Str → List (Str × Str) → List (Str × Str)
  | [], labels => labels
  | line :: rest, labels =>
    let tline := trimSpace line
    if tline = [] || tline.head? = some '#' then getLabelsLines rest labels
    else
      match splitNChar ' ' 2 tline with
      | [k] => getLabelsLines rest (setStr labels (trimSpace k) [])
      | k :: v :: _ => getLabelsLines rest (setStr labels (trimSpace k) (trimSpace v))
      | [] => getLabelsLines rest labels

/-- GetLabels: parse a labels section body into a label map. -/
def getLabels (content : Str) : List (Str × Str) :=
  getLabelsLines (splitOnChar '\n' (trimSpace content)) []

/-- isEmpty: deep equality of the populated definition, with raw data
cleared, against the freshly initialised empty definition. -/
def isEmptyDef (d : Definition) : Bool :=
  d.header = none && d.imageScripts = ({} : ImageScripts) && d.labels = []
    && d.buildFiles = [] && d.buildScripts = ({} : BuildScripts)
    && d.customData = [] && d.appOrder = []

/-- Sections left in the transient map after the standard sections (always
present at this point) are removed. -/
def remainingSections (sections : List (Str × Script)) : List (Str × Script) :=
  (validSections.foldl ensureScript sections).filter
    (fun p => !validSections.contains p.1)

/-- Remaining section keys whose first space-delimited word is not an app
section prefix — the keys reported by the invalid-section error. -/
def invalidKeys (sections : List (Str × Script)) : List Str :=
  ((remainingSections sections).filter
    (fun p => !appSections.contains (p.1.takeWhile (fun c => c ≠ ' ')))).map Prod.fst

/-- Field updates of populateDefinition: the standard sections moved into
the definition, the remaining sections retained as custom data, and the app
order recorded. -/
def populatedDef (sections : List (Str × Script)) (files : List FilesBlock)
    (appOrder : List Str) (d : Definition) : Definition :=
  let get := fun k => (lookupScript (validSections.foldl ensureScript sections) k).getD {}
  { d with
    imageScripts := { help := get (strL "help"), environment := get (strL "environment"),
                      runscript := get (strL "runscript"), test := get (strL "test"),
                      startscript := get (strL "startscript") },
    labels := getLabels (get (strL "labels")).script,
    buildFiles := files,
    buildScripts := { arguments := get (strL "arguments"), pre := get (strL "pre"),
                      setup := get (strL "setup"), post := get (strL "post"),
                      test := get (strL "test") },
    customData := if remainingSections sections = [] then d.customData
                  else (remainingSections sections).map (fun p => (p.1, p.2.script)),
    appOrder := appOrder }

/-- populateDefinition: move the standard sections into the definition,
retain the rest as custom data, reject remaining non-app keys, and reject a
definition holding no information at all. -/
def populateDefinition (sections : List (Str × Script)) (files : List FilesBlock)
    (appOrder : List Str) (d : Definition) : Except ParseErr Definition :=
  if invalidKeys sections ≠ [] then .error (.invalidSection (invalidKeys sections))
  else if isEmptyDef (populatedDef sections files appOrder d) then .error .emptyDefinition
  else .ok (populatedDef sections files appOrder d)

/-- Trailing decimal digits of a header keyword replaced by the placeholder,
as the regexp replacement in doHeader does. -/
def digitFoldKey (key : Str) : Str :=
  if key.reverse.takeWhile Char.isDigit = [] then key
  else (key.reverse.dropWhile Char.isDigit).reverse ++ strL "&n"

/-- Keyword acceptance of doHeader: direct membership, or membership after
the digit-suffix fold when the fold changed the key. -/
def headerKeywordOk (key : Str) : Bool :=
  if validHeaders.contains key then true
  else
    let tmp := digitFoldKey key
    if tmp ≠ key then validHeaders.contains tmp else false

/-- Line loop of doHeader, carrying the local header map and the pending
continuation key and value.  A blank or comment line with a continuation
pending writes straight into the definition's header map, which is nil during
parsing: that Go runtime panic is the distinguished error. -/
def doHeaderLines : List Str → List (Str × Str) → Str → Str → Definition →
    Except ParseErr Definition
  | [], hdr, _, _, d =>
    .ok (if hdr ≠ [] then {d with header := some hdr} else d)
  | line :: rest, hdr, keyCont, valCont, d =>
    let tline := trimSpace line
    if tline = [] || tline.head? = some '#' then
      if keyCont ≠ [] then
        match d.header with
        | none => .error (.headerNilMapWrite keyCont)
        | some m => doHeaderLines rest hdr [] [] {d with header := some (setStr m keyCont valCont)}
      else doHeaderLines rest hdr keyCont valCont d
    else
      let trimLine := tline.takeWhile (fun c => c ≠ '#')
      let kv : Except ParseErr (Str × Str) :=
        if valCont = [] then
          match splitOnFirst ':' trimLine with
          | none => .error (.headerKeyNoVal trimLine)
          | some (k, v) => .ok (toLowerStr (trimSpace k), trimSpace v)
        else .ok (keyCont, valCont ++ trimSpace trimLine)
      match kv with
      | .error e => .error e
      | .ok (key, val) =>
        if hasSuffixChar bslash val then
          let vc := trimSuffixChar bslash val
          let vc := if hasSuffix2 bslash 'n' vc then trimSuffix2 bslash 'n' vc ++ ['\n'] else vc
          doHeaderLines rest hdr key vc d
        else
          if headerKeywordOk key then doHeaderLines rest (setStr hdr key val) [] [] d
          else .error (.invalidHeaderKeyword key)

/-- doHeader: split the header blob into lines and run the header line loop;
the definition's header map is set only when some values were found. -/
def doHeader (h : Str) (d : Definition) : Except ParseErr Definition :=
  doHeaderLines (splitOnChar '\n' (trimSpace h)) [] [] [] d

/-- Loop of doSections over the tokens after the first. -/
def doSectionsRest : List Str → List (Str × Script) → List FilesBlock → List Str →
    Except ParseErr (List (Str × Script) × List FilesBlock × List Str)
  | [], s, f, a => .ok (s, f, a)
  | tok :: rest, s, f, a =>
    match parseTokenSection tok s f a with
    | .error e => .error e
    | .ok (s, f, a) => doSectionsRest rest s f a

/-- First-token dispatch of doSections: an all-blank first token parses into
nothing, a token not opening with a percent sign is the header, and any
other token is the first section. -/
def doSectionsStep1 (t : Str) (d : Definition) :
    Except ParseErr (Definition × List (Str × Script) × List FilesBlock × List Str) :=
  if t = [] then .ok (d, [], [], [])
  else if t.head? ≠ some '%' then
    match doHeader t d with
    | .error e => .error e
    | .ok d2 => .ok (d2, [], [], [])
  else
    match parseTokenSection t [] [] [] with
    | .error e => .error e
    | .ok (s, f, a) => .ok (d, s, f, a)

/-- doSections: route the first trimmed token to the header parser or the
section parser, consume the remaining tokens as sections, and populate the
definition. -/
def doSections (tokens : List Str) (d : Definition) : Except ParseErr Definition :=
  match tokens with
  | [] => populateDefinition [] [] [] d
  | tok0 :: rest =>
    match doSectionsStep1 (trimSpace tok0) d with
    | .error e => .error e
    | .ok (d, s, f, a) =>
      match doSectionsRest rest s f a with
      | .error e => .error e
      | .ok (s, f, a) => populateDefinition s f a d

/-- ParseDefinitionFile: read the buffer, record it as raw and full raw,
tokenize, and parse; an empty token stream is the empty-definition error. -/
def parseDefinitionFile (raw : Str) : Except ParseErr Definition :=
  let d : Definition := {raw := raw, fullRaw := raw}
  let tokens := scanDefTokens raw
  if tokens = [] then .error .emptyDefinition
  else doSections tokens d

/-- Pattern of the stage-splitting regular expression. -/
def bootstrapPat : Str := strL "bootstrap:"

/-- Case-insensitive prefix test used by the stage splitter. -/
def startsWithCI (pat cs : Str) : Bool :=
  toLowerStr (cs.take pat.length) = pat

/-- Byte offsets of every line-anchored case-insensitive occurrence of the
bootstrap pattern, as FindAllIndex produces for the multiline expression. -/
def bootstrapIndicesAux : Str → Nat → Bool → List Nat
  | [], _, _ => []
  | c :: rest, i, atStart =>
    if atStart && startsWithCI bootstrapPat (c :: rest)
    then i :: bootstrapIndicesAux rest (i + 1) (c = '\n')
    else bootstrapIndicesAux rest (i + 1) (c = '\n')

/-- Match offsets of the stage splitter over a whole buffer. -/
def bootstrapIndices (cs : Str) : List Nat := bootstrapIndicesAux cs 0 true

/-- Slices of the buffer running from each match offset to the next. -/
def chunksAfter (cs : Str) (prev : Nat) : List Nat → List Str
  | [] => [cs.drop prev]
  | j :: rest => ((cs.take j).drop prev) :: chunksAfter cs j rest

/-- Stage slices of All: the preamble before the first match followed by one
slice per match. -/
def splitBuf (cs : Str) : List Str :=
  match bootstrapIndices cs with
  | [] => [cs]
  | i :: rest => cs.take i :: chunksAfter cs i rest

/-- Stage loop of All: skip empty slices, parse the rest, silently drop
empty definitions, propagate other errors, and give every parsed stage the
whole buffer as full raw. -/
def allDefsAux : List Str → Str → List Definition → Except ParseErr (List Definition)
  | [], _, acc => if acc = [] then .error .noStages else .ok acc
  | stage :: rest, raw, acc =>
    if stage = [] then allDefsAux rest raw acc
    else
      match parseDefinitionFile stage with
      | .error e => if e = .emptyDefinition then allDefsAux rest raw acc else .error e
      | .ok d => allDefsAux rest raw (acc ++ [{d with fullRaw := raw}])

/-- All: split the buffer into stage slices and parse each one. -/
def allDefinitions (raw : Str) : Except ParseErr (List Definition) :=
  let sb := splitBuf raw
  if sb = [] then .error .emptyDefinition
  else allDefsAux sb raw []

/-- Header verification and stage naming loop of newBuild: every definition
must have a non-nil header map, and each stage is named after the header's
stage value (the empty string when absent).  The surrounding filesystem work
of newBuild is outside this pure fragment. -/
def newBuildStageNames : List Definition → Except Str (List Str)
  | [] => .ok []
  | d :: rest =>
    match d.header with
    | none => .error (strL "multiple stages detected, all must have headers")
    | some m =>
      match newBuildStageNames rest with
      | .error e => .error e
      | .ok names => .ok (getStrD m (strL "stage") :: names)

/-- Retry marker of the conveyor loop in Full. -/
def retryMarker : Str := strL "no descriptor found for reference"

/-- Message contains the retry marker. -/
def isRetryableMsg (msg : Str) : Bool := strContains msg retryMarker

/-- Conveyor retry loop of Full: Get until success; on an error, give up
(with the fatal conveyor message) when the error lacks the retry marker or
this was the fifth attempt.  The Get outcomes are indexed by attempt number;
fuel 5 covers every reachable iteration. -/
def conveyorGetLoop (get : Nat → Option Str) : Nat → Nat → Except Str Unit
  | 0, _ => .error []
  | fuel + 1, attempt =>
    match get attempt with
    | none => .ok ()
    | some msg =>
      if isRetryableMsg msg = false ∨ attempt + 1 = 5 then
        .error (strL "conveyor failed to get: " ++ msg)
      else conveyorGetLoop get fuel (attempt + 1)

/-- Entry point of the conveyor retry loop, attempt counter starting at 0. -/
def conveyorRetry (get : Nat → Option Str) : Except Str Unit :=
  conveyorGetLoop get 5 0

/-- Outcome of one stage body inside the loop of Full: either the stage ran
to completion or one of its early error returns fired. -/
inductive StageResult where
  | ok
  | fail (msg : Str)
deriving DecidableEq, Repr

/-- Stage completed. -/
def StageResult.isOk : StageResult → Bool
  | .ok => true
  | .fail _ => false

/-- Umask flow of newBuild: syscall.Umask(0o002) at entry, with the restore
deferred, so the previous umask is back on every return path. -/
def newBuildUmaskRun (oldumask : Nat) : StageResult → Nat
  | .ok => oldumask
  | .fail _ => oldumask

/-- Umask flow of Full: syscall.Umask(0o002) before the stage loop; an early
return from a failing stage leaves the process umask at 0o002 because the
restoring call sits after the loop, not in a defer; when every stage
completes, the umask is restored before the assembler runs, so even an
assembler failure exits with the old umask.  Result: final process umask and
overall success. -/
def fullUmaskRun (oldumask : Nat) : List StageResult → Bool → Nat × Bool
  | [], assembleOk => (oldumask, assembleOk)
  | .ok :: rest, assembleOk => fullUmaskRun oldumask rest assembleOk
  | .fail _ :: _, _ => (2, false)

/-- Time, version and architecture inputs of addBuildLabels, produced by
collaborators outside this fragment. -/
structure BuildTimeInfo where
  buildDate : Str
  version : Str
  buildArch : Str
deriving DecidableEq, Repr

/-- addBuildLabels: unconditionally set the schema version, build date and
package version; set the two usage labels when help runs and is non-empty;
export every header key under the deffile namespace unless this is a
non-forced update; set the OCI base labels when a tag and digest were
supplied; set the build architecture. -/
def addBuildLabels (labels : List (Str × Str)) (runHelp : Bool) (helpScript : Str)
    (update force : Bool) (header : Option (List (Str × Str))) (tag digest : Str)
    (bt : BuildTimeInfo) : List (Str × Str) :=
  let labels := setStr labels (strL "org.label-schema.schema-version") (strL "1.0")
  let labels := setStr labels (strL "org.label-schema.build-date") bt.buildDate
  let labels := setStr labels (strL "org.label-schema.usage.apptainer.version") bt.version
  let labels :=
    if runHelp ∧ helpScript ≠ [] then
      setStr (setStr labels (strL "org.label-schema.usage") (strL "/.singularity.d/runscript.help"))
        (strL "org.label-schema.usage.apptainer.runscript.help")
        (strL "/.singularity.d/runscript.help")
    else labels
  let labels :=
    if ¬update ∨ force then
      (header.getD []).foldl
        (fun m p => setStr m (strL "org.label-schema.usage.singularity.deffile." ++ p.1) p.2)
        labels
    else labels
  let labels :=
    if tag ≠ [] ∧ digest ≠ [] then
      setStr (setStr labels (strL "org.opencontainers.image.base.name") tag)
        (strL "org.opencontainers.image.base.digest") digest
    else labels
  setStr labels (strL "org.label-schema.build-arch") bt.buildArch

/-- Label map of insertLabelsJSON before the recipe labels are merged:
the labels parsed from an existing labels.json, overlaid by the labels of the
build-labels file when it exists, then the build labels. -/
def labelsBeforeRecipe (existing : List (Str × Str)) (buildLabelsContent : Option Str)
    (runHelp : Bool) (helpScript : Str) (update force : Bool)
    (header : Option (List (Str × Str))) (tag digest : Str) (bt : BuildTimeInfo) :
    List (Str × Str) :=
  let labels := existing
  let labels :=
    match buildLabelsContent with
    | some content => (getLabels content).foldl (fun m p => setStr m p.1 p.2) labels
    | none => labels
  addBuildLabels labels runHelp helpScript update force header tag digest bt

/-- Collision-checking merge step of insertLabelsJSON for one recipe label:
an existing entry is overwritten only under force; a new key is always set. -/
def mergeRecipeLabel (force : Bool) (m : List (Str × Str)) (p : Str × Str) :
    List (Str × Str) :=
  match lookupStr m p.1 with
  | some _ => if force then setStr m p.1 p.2 else m
  | none => setStr m p.1 p.2

/-- Label computation of insertLabelsJSON: the pre-recipe map, then the
recipe labels merged with the collision check, gated on the labels section
running and being non-empty. -/
def insertLabelsJSONMap (existing : List (Str × Str)) (buildLabelsContent : Option Str)
    (recipeLabels : List (Str × Str)) (runLabels runHelp : Bool) (helpScript : Str)
    (update force : Bool) (header : Option (List (Str × Str))) (tag digest : Str)
    (bt : BuildTimeInfo) : List (Str × Str) :=
  let labels := labelsBeforeRecipe existing buildLabelsContent runHelp helpScript
    update force header tag digest bt
  if runLabels ∧ recipeLabels ≠ [] then
    recipeLabels.foldl (mergeRecipeLabel force) labels
  else labels

/-- Index of the last slash in a path, by position from the front. -/
def lastSlashIdx : Str → Option Nat
  | [] => none
  | c :: rest =>
    match lastSlashIdx rest with
    | some i => some (i + 1)
    | none => if c = '/' then some 0 else none

/-- Stack step of Go path.Clean over one path element. -/
def cleanStep (rooted : Bool) (stack : List Str) (seg : Str) : List Str :=
  if seg = [] ∨ seg = strL "." then stack
  else if seg = strL ".." then
    match stack with
    | top :: rest => if top ≠ strL ".." then rest else (strL "..") :: stack
    | [] => if rooted then [] else [strL ".."]
  else seg :: stack

/-- Join path elements with slashes. -/
def joinSlash : List Str → Str
  | [] => []
  | [s] => s
  | s :: rest => s ++ '/' :: joinSlash rest

/-- Go path.Clean: shortest lexically equivalent path, via the usual element
stack processing of dot and dot-dot segments. -/
def pathClean (p : Str) : Str :=
  if p = [] then strL "."
  else
    let rooted := p.head? = some '/'
    let segs := splitOnChar '/' p
    let stack := (segs.foldl (cleanStep rooted) []).reverse
    if rooted then '/' :: joinSlash stack
    else if stack = [] then strL "." else joinSlash stack

/-- Go path.Dir: everything up to and including the final slash, cleaned. -/
def pathDir (p : Str) : Str :=
  match lastSlashIdx p with
  | none => pathClean []
  | some i => pathClean (p.take (i + 1))

/-- Go path.Base: last element of the path after trailing slashes are
removed. -/
def pathBase (p : Str) : Str :=
  if p = [] then strL "."
  else
    let q := (p.reverse.dropWhile (fun c => c = '/')).reverse
    match lastSlashIdx q with
    | none => if q = [] then strL "/" else q
    | some i => if q.drop (i + 1) = [] then strL "/" else q.drop (i + 1)

/-- Digits-only test. -/
def allDigits (s : Str) : Bool := s.all Char.isDigit

/-- Numeric value of a digit string. -/
def digitsVal (s : Str) : Nat := s.foldl (fun a c => a * 10 + (c.toNat - 48)) 0

/-- Go strconv.Atoi with its error ignored, as the squashfuse driver does:
the parsed integer on well-formed input, 0 otherwise. -/
def goAtoi : Str → Int
  | [] => 0
  | '+' :: rest => if rest ≠ [] ∧ allDigits rest then (digitsVal rest : Int) else 0
  | '-' :: rest => if rest ≠ [] ∧ allDigits rest then -(digitsVal rest : Int) else 0
  | s => if allDigits s then (digitsVal s : Int) else 0

/-- Mount parameters consumed by the squashfuse driver. -/
structure MountParams where
  source : Str
  target : Str
  offset : Nat
deriving DecidableEq, Repr

/-- Command the squashfuse driver spawns: its argument vector and the raw
file descriptor attached as the child's fd 3, when any. -/
structure MountCmd where
  argv : List Str
  extraFd : Option Int
deriving DecidableEq, Repr

/-- Command construction of the squashfuse Mount: offset option from the
request, and when the source's directory is the self fd directory, the
source argument becomes the child's fd 3 while the referenced descriptor is
attached as the single extra file. -/
def squashfuseMountCmd (cmdpath : Str) (params : MountParams) : MountCmd :=
  let optsStr := strL "offset=" ++ strL (Nat.repr params.offset)
  let srcPath :=
    if pathDir params.source = strL "/proc/self/fd" then strL "/proc/self/fd/3"
    else params.source
  { argv := [cmdpath, strL "-f", strL "-o", optsStr, srcPath, params.target],
    extraFd :=
      if pathDir params.source = strL "/proc/self/fd" then
        some (goAtoi (pathBase params.source))
      else none }

/-- Conveyor outcome sequence failing retryably twice and then succeeding. -/
def getTwoRetryableThenOk : Nat → Option Str :=
  fun n => if n < 2 then some (strL "pull: no descriptor found for reference abc") else none

/-!
Theorems settling the claims, preceded by shared helper lemmas.
-/

/-- Claim C10: in the embedding of parseTokenSection for files sections, a
line consisting of a single double quote gets no token from the fileSplitter
expression, so the access of the first token is out of bounds: the Go code
panics there, modelled as the filesIndexOutOfRange error of the total
embedding. -/
theorem C10_files_splitter_out_of_bounds :
    fileSplitterFindAll [dquote] = [] ∧
    parseDefinitionFile (strL "%files\n\"\n") = .error .filesIndexOutOfRange := by
  constructor
  · decide
  · decide

/-- Claim C9 counterexample: a build whose single stage fails exits the Full
run with the process umask still at 0o002 instead of the previous umask
0o022, so the umask is not restored on every exit path. -/
theorem C9_counterexample :
    fullUmaskRun 18 [StageResult.fail (strL "conveyor failed to get: x")] true = (2, false) ∧
    (2 : Nat) ≠ 18 := by
  constructor
  · rfl
  · decide

/-- Claim C9 as amended: newBuild restores the previous umask on every exit
path through its deferred call, while Full restores it only when every stage
completes; on a stage-failure exit the process umask remains 0o002. -/
theorem C9_umask_amended :
    (∀ (old : Nat) (r : StageResult), newBuildUmaskRun old r = old) ∧
    (∀ (old : Nat) (stages : List StageResult) (aok : Bool),
      (fullUmaskRun old stages aok).1 =
        if stages.all StageResult.isOk then old else 2) := by
  constructor
  · intro old r; cases r <;> rfl
  · intro old stages aok
    induction stages with
    | nil => simp [fullUmaskRun]
    | cons s rest ih =>
      cases s with
      | ok => simpa [fullUmaskRun, StageResult.isOk] using ih
      | fail msg => simp [fullUmaskRun, StageResult.isOk]

/-- Claim C4 counterexample: a build of two parsed Definitions neither of
which carries a stage header entry is constructed without error (both stages
get the empty name), although the claim requires construction to fail. -/
theorem C4_counterexample :
    newBuildStageNames
      [{header := some [(strL "bootstrap", strL "docker")]},
       {header := some [(strL "bootstrap", strL "docker")]}] = .ok [[], []] := by
  decide

/-- Claim C4 as amended: build construction fails with the
multiple-stages-need-headers error exactly when some Definition's header map
is nil, regardless of the number of stages and of any stage entry; otherwise
each stage's name is the value of its stage header key, the empty string
when that key is absent. -/
theorem C4_stage_headers_amended (defs : List Definition) :
    newBuildStageNames defs =
      if ∀ d ∈ defs, d.header ≠ none then
        .ok (defs.map (fun d => getStrD (d.header.getD []) (strL "stage")))
      else .error (strL "multiple stages detected, all must have headers") := by
  induction defs with
  | nil => simp [newBuildStageNames]
  | cons d rest ih =>
    cases hd : d.header with
    | none => simp [newBuildStageNames, hd]
    | some m =>
      rw [newBuildStageNames, hd, ih]
      by_cases hall : ∀ x ∈ rest, x.header ≠ none
      · rw [if_pos hall, if_pos]
        · simp [hd]
        · intro x hx
          rcases List.mem_cons.mp hx with h | h
          · rw [h, hd]; simp
          · exact hall x h
      · rw [if_neg hall, if_neg]
        intro hc
        exact hall fun x hx => hc x (List.mem_cons_of_mem _ hx)

/-- Helper: one unfolding of the conveyor retry loop. -/
theorem conveyorGetLoop_succ (get : Nat → Option Str) (fuel attempt : Nat) :
    conveyorGetLoop get (fuel + 1) attempt =
      match get attempt with
      | none => .ok ()
      | some msg =>
        if isRetryableMsg msg = false ∨ attempt + 1 = 5 then
          .error (strL "conveyor failed to get: " ++ msg)
        else conveyorGetLoop get fuel (attempt + 1) := rfl

/-- Claim C3: the conveyor loop of Full retries Get only on errors whose
message contains the retry marker, making at most five attempts in total: it
succeeds when some attempt among the first five succeeds after only
retryable failures, it fails with the fatal conveyor error as soon as an
error lacks the marker, and a failure of the fifth attempt is fatal whatever
its message. -/
theorem C3_conveyor_retry (get : Nat → Option Str) :
    (∀ k : Nat, k < 5 → get k = none →
      (∀ i, i < k → ∃ m, get i = some m ∧ isRetryableMsg m = true) →
      conveyorRetry get = .ok ()) ∧
    (∀ (j : Nat) (m : Str), j < 5 → get j = some m → isRetryableMsg m = false →
      (∀ i, i < j → ∃ m2, get i = some m2 ∧ isRetryableMsg m2 = true) →
      conveyorRetry get = .error (strL "conveyor failed to get: " ++ m)) ∧
    (∀ m : Str, get 4 = some m →
      (∀ i, i < 4 → ∃ m2, get i = some m2 ∧ isRetryableMsg m2 = true) →
      conveyorRetry get = .error (strL "conveyor failed to get: " ++ m)) := by
  refine ⟨?_, ?_, ?_⟩
  · intro k hk hnone hprev
    interval_cases k
    · simp [conveyorRetry, conveyorGetLoop_succ, hnone]
    · obtain ⟨m0, h0, r0⟩ := hprev 0 (by omega)
      simp [conveyorRetry, conveyorGetLoop_succ, h0, r0, hnone]
    · obtain ⟨m0, h0, r0⟩ := hprev 0 (by omega)
      obtain ⟨m1, h1, r1⟩ := hprev 1 (by omega)
      simp [conveyorRetry, conveyorGetLoop_succ, h0, r0, h1, r1, hnone]
    · obtain ⟨m0, h0, r0⟩ := hprev 0 (by omega)
      obtain ⟨m1, h1, r1⟩ := hprev 1 (by omega)
      obtain ⟨m2, h2, r2⟩ := hprev 2 (by omega)
      simp [conveyorRetry, conveyorGetLoop_succ, h0, r0, h1, r1, h2, r2, hnone]
    · obtain ⟨m0, h0, r0⟩ := hprev 0 (by omega)
      obtain ⟨m1, h1, r1⟩ := hprev 1 (by omega)
      obtain ⟨m2, h2, r2⟩ := hprev 2 (by omega)
      obtain ⟨m3, h3, r3⟩ := hprev 3 (by omega)
      simp [conveyorRetry, conveyorGetLoop_succ, h0, r0, h1, r1, h2, r2, h3, r3, hnone]
  · intro j m hj hsome hnr hprev
    interval_cases j
    · simp [conveyorRetry, conveyorGetLoop_succ, hsome, hnr]
    · obtain ⟨m0, h0, r0⟩ := hprev 0 (by omega)
      simp [conveyorRetry, conveyorGetLoop_succ, h0, r0, hsome, hnr]
    · obtain ⟨m0, h0, r0⟩ := hprev 0 (by omega)
      obtain ⟨m1, h1, r1⟩ := hprev 1 (by omega)
      simp [conveyorRetry, conveyorGetLoop_succ, h0, r0, h1, r1, hsome, hnr]
    · obtain ⟨m0, h0, r0⟩ := hprev 0 (by omega)
      obtain ⟨m1, h1, r1⟩ := hprev 1 (by omega)
      obtain ⟨m2, h2, r2⟩ := hprev 2 (by omega)
      simp [conveyorRetry, conveyorGetLoop_succ, h0, r0, h1, r1, h2, r2, hsome, hnr]
    · obtain ⟨m0, h0, r0⟩ := hprev 0 (by omega)
      obtain ⟨m1, h1, r1⟩ := hprev 1 (by omega)
      obtain ⟨m2, h2, r2⟩ := hprev 2 (by omega)
      obtain ⟨m3, h3, r3⟩ := hprev 3 (by omega)
      simp [conveyorRetry, conveyorGetLoop_succ, h0, r0, h1, r1, h2, r2, h3, r3, hsome, hnr]
  · intro m h4 hprev
    obtain ⟨m0, h0, r0⟩ := hprev 0 (by omega)
    obtain ⟨m1, h1, r1⟩ := hprev 1 (by omega)
    obtain ⟨m2, h2, r2⟩ := hprev 2 (by omega)
    obtain ⟨m3, h3, r3⟩ := hprev 3 (by omega)
    simp [conveyorRetry, conveyorGetLoop_succ, h0, r0, h1, r1, h2, r2, h3, r3, h4]

/-- Claim C3 witness: two retryable failures followed by a success make the
retry loop succeed. -/
theorem C3_witness : conveyorRetry getTwoRetryableThenOk = .ok () := by
  refine (C3_conveyor_retry getTwoRetryableThenOk).1 2 (by omega) (by rfl) ?_
  intro i hi
  interval_cases i
  · exact ⟨_, rfl, by decide⟩
  · exact ⟨_, rfl, by decide⟩

/-- Helper: a string without slashes has no last-slash index. -/
theorem lastSlashIdx_noslash (b : Str) (h : ∀ c ∈ b, c ≠ '/') :
    lastSlashIdx b = none := by
  induction b with
  | nil => rfl
  | cons c rest ih =>
    rw [lastSlashIdx, ih (fun x hx => h x (List.mem_cons_of_mem _ hx))]
    simp [h c (List.mem_cons_self c rest)]

/-- Helper: appending a slash-free string does not move the last slash. -/
theorem lastSlashIdx_append (a b : Str) (hb : lastSlashIdx b = none) :
    lastSlashIdx (a ++ b) = lastSlashIdx a := by
  induction a with
  | nil => simpa using hb
  | cons c rest ih =>
    rw [List.cons_append, lastSlashIdx, ih, lastSlashIdx]

/-- Claim C8: the squashfuse Mount command for a source under the self fd
directory uses fd 3 of the child as the source argument and attaches the
referenced descriptor as the child's fd 3, with argument vector
binary, -f, -o, offset option, source, target; every other source path is
passed through as the source argument with no extra descriptor. -/
theorem C8_squashfuse_mount :
    (∀ (cmdpath target fdStr : Str) (offset : Nat),
      fdStr ≠ [] → (∀ c ∈ fdStr, c ≠ '/') →
      squashfuseMountCmd cmdpath
        {source := strL "/proc/self/fd/" ++ fdStr, target := target, offset := offset} =
        { argv := [cmdpath, strL "-f", strL "-o", strL "offset=" ++ strL (Nat.repr offset),
                   strL "/proc/self/fd/3", target],
          extraFd := some (goAtoi fdStr) }) ∧
    (∀ (cmdpath : Str) (params : MountParams),
      pathDir params.source ≠ strL "/proc/self/fd" →
      squashfuseMountCmd cmdpath params =
        { argv := [cmdpath, strL "-f", strL "-o", strL "offset=" ++ strL (Nat.repr params.offset),
                   params.source, params.target],
          extraFd := none }) := by
  constructor
  · intro cmdpath target fdStr offset hne hnoslash
    have htake : (strL "/proc/self/fd/" ++ fdStr).take 14 = strL "/proc/self/fd/" := by
      conv_lhs => rw [show (14 : Nat) = (strL "/proc/self/fd/").length from rfl]
      exact List.take_left _ _
    have hdrop : (strL "/proc/self/fd/" ++ fdStr).drop 14 = fdStr := by
      conv_lhs => rw [show (14 : Nat) = (strL "/proc/self/fd/").length from rfl]
      exact List.drop_left _ _
    have hidx : lastSlashIdx (strL "/proc/self/fd/" ++ fdStr) = some 13 := by
      rw [lastSlashIdx_append _ _ (lastSlashIdx_noslash _ hnoslash)]
      rfl
    have hdir : pathDir (strL "/proc/self/fd/" ++ fdStr) = strL "/proc/self/fd" := by
      rw [pathDir, hidx]
      show pathClean ((strL "/proc/self/fd/" ++ fdStr).take (13 + 1)) = strL "/proc/self/fd"
      rw [show (13 : Nat) + 1 = 14 from rfl, htake]
      decide
    have hrev : (strL "/proc/self/fd/" ++ fdStr).reverse.dropWhile (fun c => c = '/') =
        (strL "/proc/self/fd/" ++ fdStr).reverse := by
      obtain ⟨y, ys, hy⟩ := List.exists_cons_of_ne_nil (by simpa using hne :
        fdStr.reverse ≠ [])
      rw [List.reverse_append, hy, List.cons_append, List.dropWhile_cons]
      have hyf : y ∈ fdStr := by
        have hyr : y ∈ fdStr.reverse := by rw [hy]; exact List.mem_cons_self y ys
        simpa using hyr
      simp [hnoslash y hyf]
    have hbase : pathBase (strL "/proc/self/fd/" ++ fdStr) = fdStr := by
      rw [pathBase, if_neg (fun hc => hne (List.append_eq_nil.mp hc).2)]
      simp only [hrev, List.reverse_reverse]
      rw [hidx]
      show (if (strL "/proc/self/fd/" ++ fdStr).drop (13 + 1) = [] then strL "/"
            else (strL "/proc/self/fd/" ++ fdStr).drop (13 + 1)) = fdStr
      rw [show (13 : Nat) + 1 = 14 from rfl, hdrop, if_neg hne]
    rw [squashfuseMountCmd, hdir, hbase]
    simp
  · intro cmdpath params hdir
    rw [squashfuseMountCmd]
    simp [hdir]

/-- Claim C8 witness: the request with source fd 7, offset 1024 and target
mount point yields exactly the argument vector of the specification scenario
with descriptor 7 attached as the child's fd 3. -/
theorem C8_witness :
    squashfuseMountCmd (strL "/usr/bin/squashfuse")
      {source := strL "/proc/self/fd/7", target := strL "/mnt/x", offset := 1024} =
      { argv := [strL "/usr/bin/squashfuse", strL "-f", strL "-o", strL "offset=1024",
                 strL "/proc/self/fd/3", strL "/mnt/x"],
        extraFd := some 7 } := by
  have h := (C8_squashfuse_mount).1 (strL "/usr/bin/squashfuse") (strL "/mnt/x")
    (strL "7") 1024 (by decide) (by decide)
  exact h.trans (by decide)

/-- Helper: upsert then lookup of the same key. -/
theorem lookupStr_setStr_self (m : List (Str × Str)) (k v : Str) :
    lookupStr (setStr m k v) k = some v := by
  induction m with
  | nil => simp [setStr, lookupStr]
  | cons p rest ih =>
    by_cases h : p.1 = k
    · simp [setStr, lookupStr, h]
    · simp [setStr, lookupStr, h, ih]

/-- Helper: upsert does not change the lookup of other keys. -/
theorem lookupStr_setStr_ne (m : List (Str × Str)) (k v k2 : Str) (h : k ≠ k2) :
    lookupStr (setStr m k v) k2 = lookupStr m k2 := by
  induction m with
  | nil => simp [setStr, lookupStr, h]
  | cons p rest ih =>
    by_cases hp : p.1 = k
    · simp [setStr, lookupStr, hp, h]
    · simp [setStr, lookupStr, hp, ih]

/-- Helper: the recipe-label merge step leaves other keys alone. -/
theorem lookupStr_mergeRecipeLabel_ne (force : Bool) (m : List (Str × Str))
    (p : Str × Str) (k : Str) (h : p.1 ≠ k) :
    lookupStr (mergeRecipeLabel force m p) k = lookupStr m k := by
  rw [mergeRecipeLabel]
  cases lookupStr m p.1 with
  | none => exact lookupStr_setStr_ne m p.1 p.2 k h
  | some w =>
    cases force with
    | true => exact lookupStr_setStr_ne m p.1 p.2 k h
    | false => rfl

/-- Helper: folding the merge over labels none of which has the key leaves
the key's lookup alone. -/
theorem lookupStr_foldMerge_notmem (force : Bool) (rl m : List (Str × Str)) (k : Str)
    (h : ∀ p ∈ rl, p.1 ≠ k) :
    lookupStr (rl.foldl (mergeRecipeLabel force) m) k = lookupStr m k := by
  induction rl generalizing m with
  | nil => rfl
  | cons p tl ih =>
    rw [List.foldl_cons, ih _ (fun q hq => h q (List.mem_cons_of_mem _ hq)),
      lookupStr_mergeRecipeLabel_ne force m p k (h p (List.mem_cons_self p tl))]

/-- Helper: full characterisation of the recipe-label merge fold on label
lists without duplicate keys. -/
theorem lookupStr_foldMerge (force : Bool) (rl m : List (Str × Str)) (k : Str)
    (h : (rl.map Prod.fst).Nodup) :
    lookupStr (rl.foldl (mergeRecipeLabel force) m) k =
      match lookupStr rl k, lookupStr m k with
      | some v, some _ => if force then some v else lookupStr m k
      | some v, none => some v
      | none, _ => lookupStr m k := by
  induction rl generalizing m with
  | nil => simp [lookupStr]
  | cons p tl ih =>
    rw [List.map_cons, List.nodup_cons] at h
    obtain ⟨hhead, htl⟩ := h
    by_cases hpk : p.1 = k
    · have htlk : ∀ q ∈ tl, q.1 ≠ k := by
        intro q hq hqk
        exact hhead (hpk ▸ hqk ▸ List.mem_map_of_mem Prod.fst hq)
      rw [List.foldl_cons, lookupStr_foldMerge_notmem force tl _ k htlk]
      rw [mergeRecipeLabel, hpk]
      cases hm : lookupStr m k with
      | none => simp [lookupStr, hpk, hm, lookupStr_setStr_self]
      | some w =>
        cases force with
        | true => simp [lookupStr, hpk, hm, lookupStr_setStr_self]
        | false => simp [lookupStr, hpk, hm]
    · rw [List.foldl_cons, ih _ htl,
        lookupStr_mergeRecipeLabel_ne force m p k hpk]
      simp [lookupStr, hpk]

/-- Helper: a string extending a fixed prefix differs from any string that
does not begin with that prefix. -/
theorem append_ne_of_take_ne (pre s fixed : Str) (h : fixed.take pre.length ≠ pre) :
    pre ++ s ≠ fixed := by
  intro he
  apply h
  rw [← he, List.take_left]

/-- Helper: the deffile-label export fold leaves alone every key outside the
deffile namespace. -/
theorem lookupStr_foldDeffile_ne (hdr m : List (Str × Str)) (k : Str)
    (h : ∀ s : Str, strL "org.label-schema.usage.singularity.deffile." ++ s ≠ k) :
    lookupStr (hdr.foldl
      (fun m2 p => setStr m2 (strL "org.label-schema.usage.singularity.deffile." ++ p.1) p.2)
      m) k = lookupStr m k := by
  induction hdr generalizing m with
  | nil => rfl
  | cons p tl ih =>
    rw [List.foldl_cons, ih, lookupStr_setStr_ne _ _ _ _ (h p.1)]

/-- Helper: addBuildLabels leaves alone every key distinct from the six
conditional label keys it may touch, reducing to the unconditional
schema-version, build-date and version inserts. -/
theorem addBuildLabels_lookup_preserved (labels : List (Str × Str)) (runHelp : Bool)
    (helpScript : Str) (update force : Bool) (header : Option (List (Str × Str)))
    (tag digest : Str) (bt : BuildTimeInfo) (k : Str)
    (hk1 : k ≠ strL "org.label-schema.usage")
    (hk2 : k ≠ strL "org.label-schema.usage.apptainer.runscript.help")
    (hk3 : ∀ s : Str, strL "org.label-schema.usage.singularity.deffile." ++ s ≠ k)
    (hk4 : k ≠ strL "org.opencontainers.image.base.name")
    (hk5 : k ≠ strL "org.opencontainers.image.base.digest")
    (hk6 : k ≠ strL "org.label-schema.build-arch") :
    lookupStr (addBuildLabels labels runHelp helpScript update force header tag digest bt) k =
      lookupStr (setStr (setStr (setStr labels
        (strL "org.label-schema.schema-version") (strL "1.0"))
        (strL "org.label-schema.build-date") bt.buildDate)
        (strL "org.label-schema.usage.apptainer.version") bt.version) k := by
  rw [addBuildLabels]
  have e1 : ∀ (m : List (Str × Str)) (v : Str),
      lookupStr (setStr m (strL "org.label-schema.usage") v) k = lookupStr m k :=
    fun m v => lookupStr_setStr_ne m _ v k (fun he => hk1 he.symm)
  have e2 : ∀ (m : List (Str × Str)) (v : Str),
      lookupStr (setStr m (strL "org.label-schema.usage.apptainer.runscript.help") v) k =
        lookupStr m k :=
    fun m v => lookupStr_setStr_ne m _ v k (fun he => hk2 he.symm)
  have e3 : ∀ (hdr m : List (Str × Str)),
      lookupStr (hdr.foldl
        (fun m2 p => setStr m2 (strL "org.label-schema.usage.singularity.deffile." ++ p.1) p.2)
        m) k = lookupStr m k :=
    fun hdr m => lookupStr_foldDeffile_ne hdr m k hk3
  have e4 : ∀ (m : List (Str × Str)) (v : Str),
      lookupStr (setStr m (strL "org.opencontainers.image.base.name") v) k = lookupStr m k :=
    fun m v => lookupStr_setStr_ne m _ v k (fun he => hk4 he.symm)
  have e5 : ∀ (m : List (Str × Str)) (v : Str),
      lookupStr (setStr m (strL "org.opencontainers.image.base.digest") v) k = lookupStr m k :=
    fun m v => lookupStr_setStr_ne m _ v k (fun he => hk5 he.symm)
  have e6 : ∀ (m : List (Str × Str)) (v : Str),
      lookupStr (setStr m (strL "org.label-schema.build-arch") v) k = lookupStr m k :=
    fun m v => lookupStr_setStr_ne m _ v k (fun he => hk6 he.symm)
  simp only [e6]
  split_ifs <;> simp only [e1, e2, e3, e4, e5]

/-- Claim C2 counterexample: with no existing labels.json at all and force
false, a recipe label colliding with an automatic label is not stored — the
automatic value wins — although the claim says a key absent from the
existing labels.json gets the recipe's value. -/
theorem C2_counterexample :
    lookupStr (insertLabelsJSONMap [] none
      [(strL "org.label-schema.schema-version", strL "X")] true false [] false false none
      [] [] ⟨strL "D", strL "V", strL "A"⟩) (strL "org.label-schema.schema-version")
      = some (strL "1.0") ∧ strL "1.0" ≠ strL "X" := by
  constructor
  · decide
  · decide

/-- Claim C2 as amended: the collision check of the recipe-label merge runs
against the merged map of existing labels.json, the build-labels file and
the automatic build labels — not against the existing labels.json alone: a
key present in that merged map keeps its pre-merge value unless force is
set, a key absent from it gets the recipe's value, and the automatic
org.label-schema labels are always set before the recipe merge (so a
colliding recipe label can replace them only under force). -/
theorem C2_labels_amended (existing : List (Str × Str)) (blc : Option Str)
    (recipeLabels : List (Str × Str)) (runLabels runHelp : Bool) (helpScript : Str)
    (update force : Bool) (header : Option (List (Str × Str))) (tag digest : Str)
    (bt : BuildTimeInfo) (k : Str) (hnodup : (recipeLabels.map Prod.fst).Nodup) :
    (lookupStr (insertLabelsJSONMap existing blc recipeLabels runLabels runHelp helpScript
        update force header tag digest bt) k =
      if runLabels ∧ recipeLabels ≠ [] then
        match lookupStr recipeLabels k,
            lookupStr (labelsBeforeRecipe existing blc runHelp helpScript update force
              header tag digest bt) k with
        | some v, some _ =>
          if force then some v
          else lookupStr (labelsBeforeRecipe existing blc runHelp helpScript update force
            header tag digest bt) k
        | some v, none => some v
        | none, _ => lookupStr (labelsBeforeRecipe existing blc runHelp helpScript update force
            header tag digest bt) k
      else lookupStr (labelsBeforeRecipe existing blc runHelp helpScript update force
        header tag digest bt) k) ∧
    lookupStr (labelsBeforeRecipe existing blc runHelp helpScript update force header tag
      digest bt) (strL "org.label-schema.schema-version") = some (strL "1.0") ∧
    lookupStr (labelsBeforeRecipe existing blc runHelp helpScript update force header tag
      digest bt) (strL "org.label-schema.build-date") = some bt.buildDate ∧
    lookupStr (labelsBeforeRecipe existing blc runHelp helpScript update force header tag
      digest bt) (strL "org.label-schema.usage.apptainer.version") = some bt.version ∧
    lookupStr (labelsBeforeRecipe existing blc runHelp helpScript update force header tag
      digest bt) (strL "org.label-schema.build-arch") = some bt.buildArch := by
  refine ⟨?_, ?_, ?_, ?_, ?_⟩
  · rw [insertLabelsJSONMap]
    split
    · exact lookupStr_foldMerge force recipeLabels _ k hnodup
    · rfl
  · simp only [labelsBeforeRecipe]
    rw [addBuildLabels_lookup_preserved _ _ _ _ _ _ _ _ _ _
        (by decide) (by decide)
        (fun s => append_ne_of_take_ne _ s _ (by decide)) (by decide) (by decide) (by decide),
      lookupStr_setStr_ne _ _ _ _ (by decide), lookupStr_setStr_ne _ _ _ _ (by decide),
      lookupStr_setStr_self]
  · simp only [labelsBeforeRecipe]
    rw [addBuildLabels_lookup_preserved _ _ _ _ _ _ _ _ _ _
        (by decide) (by decide)
        (fun s => append_ne_of_take_ne _ s _ (by decide)) (by decide) (by decide) (by decide),
      lookupStr_setStr_ne _ _ _ _ (by decide), lookupStr_setStr_self]
  · simp only [labelsBeforeRecipe]
    rw [addBuildLabels_lookup_preserved _ _ _ _ _ _ _ _ _ _
        (by decide) (by decide)
        (fun s => append_ne_of_take_ne _ s _ (by decide)) (by decide) (by decide) (by decide),
      lookupStr_setStr_self]
  · simp only [labelsBeforeRecipe]
    rw [addBuildLabels, lookupStr_setStr_self]

/-- Claim C2 witness: with an existing label X and force false, a recipe
label for X keeps the existing value. -/
theorem C2_witness :
    lookupStr (insertLabelsJSONMap [(strL "X", strL "0")] none [(strL "X", strL "1")]
      true false [] false false none [] [] ⟨strL "D", strL "V", strL "A"⟩)
      (strL "X") = some (strL "0") := by
  have h := (C2_labels_amended [(strL "X", strL "0")] none [(strL "X", strL "1")]
    true false [] false false none [] [] ⟨strL "D", strL "V", strL "A"⟩ (strL "X")
    (by decide)).1
  exact h.trans (by decide)

/-- Claim C6: a remaining section key that is neither one of the eleven known
section names nor app-prefixed makes parsing fail with the invalid-section
error listing exactly the offending keys (a recipe with an extra section
yields the singleton list), while app-prefixed remaining keys never produce
that error and are retained in the definition's custom data. -/
theorem C6_invalid_sections :
    (parseDefinitionFile (strL "Bootstrap: docker\nFrom: a\n%extra\nstuff\n") =
      .error (.invalidSection [strL "extra"])) ∧
    (∀ (s : List (Str × Script)) (f : List FilesBlock) (a : List Str) (d : Definition),
      invalidKeys s ≠ [] →
      populateDefinition s f a d = .error (.invalidSection (invalidKeys s))) ∧
    (∀ (s : List (Str × Script)) (f : List FilesBlock) (a : List Str) (d : Definition)
      (e : ParseErr), invalidKeys s = [] → populateDefinition s f a d = .error e →
      e = .emptyDefinition) ∧
    (∀ (s : List (Str × Script)) (f : List FilesBlock) (a : List Str) (d d2 : Definition),
      populateDefinition s f a d = .ok d2 →
      d2.customData = if remainingSections s = [] then d.customData
        else (remainingSections s).map (fun p => (p.1, p.2.script))) := by
  refine ⟨by decide, ?_, ?_, ?_⟩
  · intro s f a d h
    unfold populateDefinition
    rw [if_pos h]
  · intro s f a d e h hparse
    unfold populateDefinition at hparse
    rw [if_neg (by simp [h])] at hparse
    split at hparse
    · injection hparse with h2
      exact h2.symm
    · cases hparse
  · intro s f a d d2 h
    unfold populateDefinition at h
    split at h
    · cases h
    · split at h
      · cases h
      · injection h with h
        subst h
        rfl

/-- Claim C6 witness: a sections map holding only the unknown key extra makes
populateDefinition fail listing exactly that key. -/
theorem C6_witness :
    populateDefinition [(strL "extra", {script := strL "stuff\n"})] [] [] {} =
      .error (.invalidSection [strL "extra"]) := by
  have h := C6_invalid_sections.2.1 [(strL "extra", {script := strL "stuff\n"})] [] [] {}
    (by decide)
  exact h.trans (by decide)

/-- Helper: a blank or comment line with a continuation pending writes the
pending pair straight into the definition's header map; with the nil header
map of a parse in progress this is the modelled runtime panic. -/
theorem doHeaderLines_blank_pending (line : Str) (rest : List Str)
    (hdr : List (Str × Str)) (kc vc : Str) (d : Definition)
    (hblank : trimSpace line = [] ∨ (trimSpace line).head? = some '#')
    (hkc : kc ≠ []) (hd : d.header = none) :
    doHeaderLines (line :: rest) hdr kc vc d = .error (.headerNilMapWrite kc) := by
  rcases hblank with h | h <;> simp [doHeaderLines, h, hkc, hd]

/-- Helper: a non-blank, non-comment line with a continuation pending joins
the pending value with the line's trimmed comment-free text, re-entering
continuation on a trailing backslash and otherwise storing the pair after
the keyword check. -/
theorem doHeaderLines_cont_join (line : Str) (rest : List Str)
    (hdr : List (Str × Str)) (kc vc : Str) (d : Definition)
    (hnb1 : ¬trimSpace line = []) (hnb2 : ¬(trimSpace line).head? = some '#')
    (hvc : vc ≠ []) :
    doHeaderLines (line :: rest) hdr kc vc d =
      (let val := vc ++ trimSpace ((trimSpace line).takeWhile (fun c => c ≠ '#'))
       if hasSuffixChar bslash val then
         doHeaderLines rest hdr kc
           (let vc2 := trimSuffixChar bslash val
            if hasSuffix2 bslash 'n' vc2 then trimSuffix2 bslash 'n' vc2 ++ ['\n'] else vc2) d
       else if headerKeywordOk kc then doHeaderLines rest (setStr hdr kc val) [] [] d
            else .error (.invalidHeaderKeyword kc)) := by
  simp only [doHeaderLines]
  rw [if_neg (by simp [hnb1, hnb2]), if_neg hvc]

/-- Helper: a fresh non-blank, non-comment line splitting on its first colon
parses into a lowercased trimmed key and a trimmed value, entering
continuation on a trailing backslash and otherwise storing the pair after
the keyword check. -/
theorem doHeaderLines_fresh (line : Str) (rest : List Str)
    (hdr : List (Str × Str)) (kc : Str) (d : Definition) (k v : Str)
    (hnb1 : ¬trimSpace line = []) (hnb2 : ¬(trimSpace line).head? = some '#')
    (hsplit : splitOnFirst ':' ((trimSpace line).takeWhile (fun c => c ≠ '#')) = some (k, v)) :
    doHeaderLines (line :: rest) hdr kc [] d =
      (let key := toLowerStr (trimSpace k)
       let val := trimSpace v
       if hasSuffixChar bslash val then
         doHeaderLines rest hdr key
           (let vc2 := trimSuffixChar bslash val
            if hasSuffix2 bslash 'n' vc2 then trimSuffix2 bslash 'n' vc2 ++ ['\n'] else vc2) d
       else if headerKeywordOk key then doHeaderLines rest (setStr hdr key val) [] [] d
            else .error (.invalidHeaderKeyword key)) := by
  simp only [doHeaderLines]
  rw [if_neg (by simp [hnb1, hnb2])]
  simp only [if_true, hsplit]

/-- Helper: a fresh non-blank, non-comment line with no colon is the
header-key-had-no-val error. -/
theorem doHeaderLines_fresh_nocolon (line : Str) (rest : List Str)
    (hdr : List (Str × Str)) (kc : Str) (d : Definition)
    (hnb1 : ¬trimSpace line = []) (hnb2 : ¬(trimSpace line).head? = some '#')
    (hsplit : splitOnFirst ':' ((trimSpace line).takeWhile (fun c => c ≠ '#')) = none) :
    doHeaderLines (line :: rest) hdr kc [] d =
      .error (.headerKeyNoVal ((trimSpace line).takeWhile (fun c => c ≠ '#'))) := by
  simp only [doHeaderLines]
  rw [if_neg (by simp [hnb1, hnb2])]
  simp only [if_true, hsplit]

/-- Claim C5 counterexample: a blank line following a backslash-continued
header value does terminate the continuation — the code stores the pending
pair into the nil header map, a runtime panic — instead of continuing the
value onto the next non-blank line as the claim states. -/
theorem C5_counterexample :
    parseDefinitionFile
      (strL "Bootstrap: docker\nFrom: alpine \\\n\nOSVersion: 7\n%post\nhi\n") =
      .error (.headerNilMapWrite (strL "from")) := by
  decide

/-- Claim C5 as amended: a header value ending in a backslash continues onto
the immediately following line only when that line is non-blank and
non-comment (two concrete parses and the general continuation step); inside
a continuation a trailing literal backslash-n becomes a newline character;
and a blank or comment line while a continuation is pending terminates it by
writing into the definition's nil header map, the modelled runtime panic. -/
theorem C5_header_continuation_amended :
    ((parseDefinitionFile (strL "Bootstrap: docker\nFrom: alpine \\\nedge\n%post\nhi\n")).map
        (fun d => lookupStr (d.header.getD []) (strL "from")) =
      .ok (some (strL "alpine edge"))) ∧
    ((parseDefinitionFile (strL "Bootstrap: docker\nFrom: a\\n\\\nb\n%post\nhi\n")).map
        (fun d => lookupStr (d.header.getD []) (strL "from")) =
      .ok (some (strL "a\nb"))) ∧
    (∀ (line : Str) (rest : List Str) (hdr : List (Str × Str)) (kc vc : Str) (d : Definition),
      ¬trimSpace line = [] → ¬(trimSpace line).head? = some '#' → vc ≠ [] →
      doHeaderLines (line :: rest) hdr kc vc d =
        (let val := vc ++ trimSpace ((trimSpace line).takeWhile (fun c => c ≠ '#'))
         if hasSuffixChar bslash val then
           doHeaderLines rest hdr kc
             (let vc2 := trimSuffixChar bslash val
              if hasSuffix2 bslash 'n' vc2 then trimSuffix2 bslash 'n' vc2 ++ ['\n'] else vc2) d
         else if headerKeywordOk kc then doHeaderLines rest (setStr hdr kc val) [] [] d
              else .error (.invalidHeaderKeyword kc))) ∧
    (∀ (line : Str) (rest : List Str) (hdr : List (Str × Str)) (kc vc : Str) (d : Definition),
      (trimSpace line = [] ∨ (trimSpace line).head? = some '#') → kc ≠ [] →
      d.header = none →
      doHeaderLines (line :: rest) hdr kc vc d = .error (.headerNilMapWrite kc)) := by
  refine ⟨by decide, by decide, ?_, ?_⟩
  · intro line rest hdr kc vc d h1 h2 h3
    exact doHeaderLines_cont_join line rest hdr kc vc d h1 h2 h3
  · intro line rest hdr kc vc d h1 h2 h3
    exact doHeaderLines_blank_pending line rest hdr kc vc d h1 h2 h3

/-- Claim C5 witness: a blank line while the continuation for the from key
is pending, with the nil header map of a fresh definition, terminates the
continuation with the nil-map write. -/
theorem C5_witness :
    doHeaderLines [[]] [] (strL "from") (strL "alpine ") {} =
      .error (.headerNilMapWrite (strL "from")) :=
  C5_header_continuation_amended.2.2.2 [] [] [] (strL "from") (strL "alpine ") {}
    (Or.inl rfl) (by decide) rfl

/-- Claim C7 counterexample: a non-blank, non-comment header line with no
colon raises no error when it is the continuation of the previous line: the
recipe whose header holds the colon-free line b parses successfully, the
continued from value being the join of both lines. -/
theorem C7_counterexample :
    (parseDefinitionFile (strL "Bootstrap: docker\nFrom: a \\\nb\n%post\nhi\n")).map
        (fun d => lookupStr (d.header.getD []) (strL "from")) =
      .ok (some (strL "a b")) := by
  decide

/-- Claim C7 as amended: header keywords form a closed set with the trailing
digit-suffix fold (otherurl2 folds to the otherurl placeholder and is
accepted, otherfoo is rejected), a fresh header line is stored exactly when
its folded lowercased key passes the keyword check, and a non-blank,
non-comment line with no colon yields the invalid-header error only when it
is not consumed as a continuation of the previous line. -/
theorem C7_header_keywords_amended :
    (headerKeywordOk (strL "otherurl2") = true) ∧
    (headerKeywordOk (strL "otherfoo") = false) ∧
    (digitFoldKey (strL "otherurl2") = strL "otherurl&n") ∧
    (∀ key : Str, validHeaders.contains key = false →
      headerKeywordOk key =
        (digitFoldKey key ≠ key && validHeaders.contains (digitFoldKey key))) ∧
    (doHeader (strL "Otherurl2: https://x") {} =
      .ok {header := some [(strL "otherurl2", strL "https://x")]}) ∧
    (doHeader (strL "Otherfoo: v") {} = .error (.invalidHeaderKeyword (strL "otherfoo"))) ∧
    (∀ (line : Str) (rest : List Str) (hdr : List (Str × Str)) (kc : Str) (d : Definition),
      ¬trimSpace line = [] → ¬(trimSpace line).head? = some '#' →
      splitOnFirst ':' ((trimSpace line).takeWhile (fun c => c ≠ '#')) = none →
      doHeaderLines (line :: rest) hdr kc [] d =
        .error (.headerKeyNoVal ((trimSpace line).takeWhile (fun c => c ≠ '#')))) ∧
    (∀ (line : Str) (rest : List Str) (hdr : List (Str × Str)) (kc : Str) (d : Definition)
      (k v : Str),
      ¬trimSpace line = [] → ¬(trimSpace line).head? = some '#' →
      splitOnFirst ':' ((trimSpace line).takeWhile (fun c => c ≠ '#')) = some (k, v) →
      ¬hasSuffixChar bslash (trimSpace v) →
      doHeaderLines (line :: rest) hdr kc [] d =
        (if headerKeywordOk (toLowerStr (trimSpace k)) then
          doHeaderLines rest (setStr hdr (toLowerStr (trimSpace k)) (trimSpace v)) [] [] d
        else .error (.invalidHeaderKeyword (toLowerStr (trimSpace k))))) := by
  refine ⟨by decide, by decide, by decide, ?_, by decide, by decide, ?_, ?_⟩
  · intro key h
    rw [headerKeywordOk]
    rw [if_neg (fun hc => by rw [h] at hc; exact Bool.noConfusion hc)]
    by_cases heq : digitFoldKey key = key
    · simp [heq]
    · simp [heq]
  · intro line rest hdr kc d h1 h2 h3
    exact doHeaderLines_fresh_nocolon line rest hdr kc d h1 h2 h3
  · intro line rest hdr kc d k v h1 h2 h3 h4
    rw [doHeaderLines_fresh line rest hdr kc d k v h1 h2 h3]
    simp only [if_neg h4]

/-- Claim C7 witness: a colon-free fresh header line is rejected with the
invalid-header error naming the line. -/
theorem C7_witness :
    doHeaderLines [strL "nocolonhere"] [] [] [] {} =
      .error (.headerKeyNoVal (strL "nocolonhere")) := by
  have h := C7_header_keywords_amended.2.2.2.2.2.2.1 (strL "nocolonhere") [] [] [] {}
    (by decide) (by decide) (by decide)
  exact h.trans (by decide)

/-- Helper: the header line loop changes only the header field, leaving raw
and full raw untouched. -/
theorem doHeaderLines_ok_raw (lines : List Str) :
    ∀ (hdr : List (Str × Str)) (kc vc : Str) (d d2 : Definition),
    doHeaderLines lines hdr kc vc d = .ok d2 → d2.raw = d.raw ∧ d2.fullRaw = d.fullRaw := by
  induction lines with
  | nil =>
    intro hdr kc vc d d2 h
    simp only [doHeaderLines] at h
    injection h with h
    subst h
    split <;> exact ⟨rfl, rfl⟩
  | cons line rest ih =>
    intro hdr kc vc d d2 h
    simp only [doHeaderLines] at h
    split at h
    · split at h
      · split at h
        · cases h
        · have h2 := ih _ _ _ _ _ h
          simpa using h2
      · exact ih _ _ _ _ _ h
    · split at h
      · cases h
      · split at h
        · exact ih _ _ _ _ _ h
        · split at h
          · exact ih _ _ _ _ _ h
          · cases h

/-- Helper: doHeader preserves raw and full raw on success. -/
theorem doHeader_ok_raw (h : Str) (d d2 : Definition)
    (hok : doHeader h d = .ok d2) : d2.raw = d.raw ∧ d2.fullRaw = d.fullRaw :=
  doHeaderLines_ok_raw _ _ _ _ _ _ hok

/-- Helper: populateDefinition preserves raw and full raw on success. -/
theorem populateDefinition_ok_raw (s : List (Str × Script)) (f : List FilesBlock)
    (a : List Str) (d d2 : Definition) (h : populateDefinition s f a d = .ok d2) :
    d2.raw = d.raw ∧ d2.fullRaw = d.fullRaw := by
  unfold populateDefinition at h
  split at h
  · cases h
  · split at h
    · cases h
    · injection h with h
      subst h
      exact ⟨rfl, rfl⟩

/-- Helper: the first-token dispatch preserves raw and full raw of the
definition component on success. -/
theorem doSectionsStep1_ok_raw (t : Str) (d d1 : Definition)
    (s : List (Str × Script)) (f : List FilesBlock) (a : List Str)
    (h : doSectionsStep1 t d = .ok (d1, s, f, a)) :
    d1.raw = d.raw ∧ d1.fullRaw = d.fullRaw := by
  unfold doSectionsStep1 at h
  split at h
  · injection h with h
    obtain ⟨h1, -⟩ := Prod.mk.injEq .. ▸ h
    rw [← h1]
    exact ⟨rfl, rfl⟩
  · split at h
    · split at h
      · cases h
      · rename_i d3 hd3
        injection h with h
        obtain ⟨h1, -⟩ := Prod.mk.injEq .. ▸ h
        rw [← h1]
        exact doHeader_ok_raw _ _ _ hd3
    · split at h
      · cases h
      · injection h with h
        obtain ⟨h1, -⟩ := Prod.mk.injEq .. ▸ h
        rw [← h1]
        exact ⟨rfl, rfl⟩

/-- Helper: doSections preserves raw and full raw on success. -/
theorem doSections_ok_raw (tokens : List Str) (d d2 : Definition)
    (h : doSections tokens d = .ok d2) : d2.raw = d.raw ∧ d2.fullRaw = d.fullRaw := by
  cases tokens with
  | nil => exact populateDefinition_ok_raw _ _ _ _ _ h
  | cons tok0 rest =>
    simp only [doSections] at h
    split at h
    · cases h
    · rename_i d1 s f a hstep
      split at h
      · cases h
      · have hp := populateDefinition_ok_raw _ _ _ _ _ h
        have hs := doSectionsStep1_ok_raw _ _ _ _ _ _ hstep
        exact ⟨hp.1.trans hs.1, hp.2.trans hs.2⟩

/-- Helper: ParseDefinitionFile records the input buffer as both raw and
full raw of the returned definition. -/
theorem parseDefinitionFile_ok_raw (raw : Str) (d : Definition)
    (h : parseDefinitionFile raw = .ok d) : d.raw = raw ∧ d.fullRaw = raw := by
  simp only [parseDefinitionFile] at h
  split at h
  · cases h
  · exact doSections_ok_raw _ _ _ h

/-- Helper: the stage splitter always produces at least one slice. -/
theorem splitBuf_ne_nil (cs : Str) : splitBuf cs ≠ [] := by
  unfold splitBuf
  split <;> simp

/-- Helper: when every non-empty slice parses successfully, the stage loop
of All appends one definition per non-empty slice, in order, each carrying
the slice as raw and the whole buffer as full raw. -/
theorem allDefsAux_parses (chunks : List Str) (raw : Str) :
    ∀ acc : List Definition,
    (∀ c ∈ chunks, c ≠ [] → ∃ d, parseDefinitionFile c = .ok d) →
    ∃ ds : List Definition,
      allDefsAux chunks raw acc =
        (if acc ++ ds = [] then .error .noStages else .ok (acc ++ ds)) ∧
      ds.map Definition.raw = chunks.filter (fun c => c ≠ []) ∧
      ∀ d ∈ ds, d.fullRaw = raw := by
  induction chunks with
  | nil =>
    intro acc h
    exact ⟨[], by simp [allDefsAux], by simp, by simp⟩
  | cons c tl ih =>
    intro acc h
    by_cases hc : c = []
    · obtain ⟨ds, h1, h2, h3⟩ := ih acc (fun x hx hne => h x (List.mem_cons_of_mem _ hx) hne)
      refine ⟨ds, ?_, ?_, h3⟩
      · subst hc
        simpa [allDefsAux] using h1
      · subst hc
        simpa using h2
    · obtain ⟨d, hd⟩ := h c (List.mem_cons_self c tl) hc
      obtain ⟨ds, h1, h2, h3⟩ :=
        ih (acc ++ [{d with fullRaw := raw}]) (fun x hx hne => h x (List.mem_cons_of_mem _ hx) hne)
      refine ⟨{d with fullRaw := raw} :: ds, ?_, ?_, ?_⟩
      · simp only [allDefsAux, if_neg hc, hd]
        rw [h1]
        simp [List.append_assoc]
      · simp only [List.map_cons, h2]
        simp [(parseDefinitionFile_ok_raw c d hd).1, hc]
      · intro x hx
        rcases List.mem_cons.mp hx with rfl | hx
        · rfl
        · exact h3 x hx

/-- Helper: when every slice is empty or parses to the empty definition, the
stage loop of All collects nothing and fails with the no-stages error. -/
theorem allDefsAux_allEmpty (chunks : List Str) (raw : Str)
    (h : ∀ c ∈ chunks, c = [] ∨ parseDefinitionFile c = .error .emptyDefinition) :
    allDefsAux chunks raw [] = .error .noStages := by
  induction chunks with
  | nil => rfl
  | cons c tl ih =>
    by_cases hc0 : c = []
    · simp only [allDefsAux, if_pos hc0]
      exact ih (fun x hx => h x (List.mem_cons_of_mem _ hx))
    · rcases h c (List.mem_cons_self c tl) with hc | hc
      · exact absurd hc hc0
      · simp only [allDefsAux, if_neg hc0, hc]
        simpa using ih (fun x hx => h x (List.mem_cons_of_mem _ hx))

/-- Claim C1: when a buffer is the concatenation of n non-empty stage texts
(operationally: the stage splitter recovers exactly those texts after an
empty preamble) and every stage text parses successfully, the All function
returns exactly those n definitions in order, each with the stage text as
its raw bytes and the whole buffer as its full raw, the concatenation of the
raw fields being the whole buffer; and whenever every slice of a buffer is
empty or parses to the empty definition, All fails with the no-stages
error. -/
theorem C1_parse_all :
    (∀ stages : List Str, stages ≠ [] →
      (∀ s ∈ stages, s ≠ []) →
      splitBuf stages.flatten = [] :: stages →
      (∀ s ∈ stages, ∃ d, parseDefinitionFile s = .ok d) →
      ∃ ds : List Definition, allDefinitions stages.flatten = .ok ds ∧
        ds.map Definition.raw = stages ∧
        (∀ d ∈ ds, d.fullRaw = stages.flatten) ∧
        (ds.map Definition.raw).flatten = stages.flatten) ∧
    (∀ raw : Str,
      (∀ c ∈ splitBuf raw, c = [] ∨ parseDefinitionFile c = .error .emptyDefinition) →
      allDefinitions raw = .error .noStages) := by
  constructor
  · intro stages hne hnonempty hsplit hparse
    have hall : ∀ c ∈ ([] : Str) :: stages, c ≠ [] → ∃ d, parseDefinitionFile c = .ok d := by
      intro c hcm hcne
      rcases List.mem_cons.mp hcm with rfl | hcm
      · exact absurd rfl hcne
      · exact hparse c hcm
    obtain ⟨ds, h1, h2, h3⟩ := allDefsAux_parses ([] :: stages) stages.flatten [] hall
    have hfilter : (([] : Str) :: stages).filter (fun c => c ≠ []) = stages := by
      rw [List.filter_cons]
      simp only [decide_not]
      rw [List.filter_eq_self.mpr (fun a ha => by simpa using hnonempty a ha)]
      simp
    rw [hfilter] at h2
    have hds : ds ≠ [] := by
      intro hcon
      rw [hcon] at h2
      exact hne h2.symm
    refine ⟨ds, ?_, h2, h3, by rw [h2]⟩
    rw [allDefinitions]
    rw [hsplit]
    rw [if_neg (by simp)]
    rw [h1, if_neg (by simpa using hds)]
    simp
  · intro raw h
    rw [allDefinitions]
    rw [if_neg (splitBuf_ne_nil raw)]
    exact allDefsAux_allEmpty (splitBuf raw) raw h

/-- Claim C1 witness: a buffer made of two bootstrap stages parses into two
definitions whose raw fields are the stage texts, each full raw being the
whole buffer, whose concatenation is the buffer again. -/
theorem C1_witness :
    ∃ ds : List Definition,
      allDefinitions (strL "Bootstrap: docker\nFrom: a\nBootstrap: docker\nFrom: b\n") =
        .ok ds ∧
      ds.map Definition.raw =
        [strL "Bootstrap: docker\nFrom: a\n", strL "Bootstrap: docker\nFrom: b\n"] ∧
      (∀ d ∈ ds,
        d.fullRaw = strL "Bootstrap: docker\nFrom: a\nBootstrap: docker\nFrom: b\n") ∧
      (ds.map Definition.raw).flatten =
        strL "Bootstrap: docker\nFrom: a\nBootstrap: docker\nFrom: b\n" := by
  have h := C1_parse_all.1
    [strL "Bootstrap: docker\nFrom: a\n", strL "Bootstrap: docker\nFrom: b\n"]
    (by simp) (by decide) (by decide) ?_
  · simpa using h
  · intro s hs
    rcases List.mem_cons.mp hs with rfl | hs
    · exact ⟨_, rfl⟩
    · rcases List.mem_cons.mp hs with rfl | hs
      · exact ⟨_, rfl⟩
      · cases hs

end Apptainer
